import Mathlib

/-!
Shallow embedding of the `DataAnalysis` repository
(`src/python/dataframeaggregator.py` and `src/python/pandas_util.py`).

Tables are modelled as lists of rows; a row is an association list from column
names to cells.  A cell is a Python scalar (string or integer).  The
`DataFrameAggregator` class is modelled as a state record, and each mutating
method returns the updated state together with an optional error, so that
side effects performed before a raise remain visible in the returned state
(exactly as they remain visible on `self` in Python).
-/

/-- Scalar cell values stored in a data frame (the repository only ever filters
and rewrites string-or-number valued columns). -/
inductive Cell where
  | s (v : String)
  | i (v : Int)
deriving DecidableEq

/-- A data-frame row: an association list from column names to cells. -/
def Row : Type := List (String × Cell)

instance : DecidableEq Row := by
  unfold Row
  infer_instance

/-- A pandas `DataFrame`: a list of column names plus the rows. -/
structure PFrame where
  columns : List String
  rows : List Row
deriving DecidableEq

/-- Value of column `c` in row `r` (`df[c]` for one row; reads the original
association, first binding wins as column labels are unique in a frame). -/
def rowGet (r : Row) (c : String) : Cell :=
  match r.find? (fun p => p.1 == c) with
  | some p => p.2
  | none => Cell.s ""

/-- Overwrite column `c` of row `r` with value `v` (`df.assign(**{c: v})` for
one row). -/
def rowSet (r : Row) (c : String) (v : Cell) : Row :=
  r.map (fun p => if p.1 == c then (p.1, v) else p)

/-- Helper for `dedupFirst`: drop elements already seen. -/
def dedupFirstAux {α : Type} [DecidableEq α] : List α → List α → List α
  | [], _ => []
  | x :: xs, seen =>
    if x ∈ seen then dedupFirstAux xs seen else x :: dedupFirstAux xs (x :: seen)

/-- Python's `list(dict.fromkeys(l))`: keep the first occurrence of every
element, preserving first-seen order. -/
def dedupFirst {α : Type} [DecidableEq α] (l : List α) : List α :=
  dedupFirstAux l []

/-- Python dict lookup on an association list built with possibly repeated
keys: the last binding for a key wins (`{**a, **b}` / comprehension
semantics). -/
def dictGet {α : Type} (d : List (String × α)) (k : String) : Option α :=
  ((d.filter (fun p => p.1 == k)).reverse.head?).map Prod.snd

/-- The `sub_values` field of the `TotalColSpecs` namedtuple: the Python
literal `False` for a grand total, or a list of filter values for a subtotal
(`add_grandtotal` stores `False`, `add_subtotal` stores `subtotal_filter`). -/
inductive SubVals where
  | falseV
  | listV (vals : List Cell)
deriving DecidableEq

/-- Python's `specs.sub_values is False` test used in `aggregate` to pick out
the grand totals of a subset. -/
def isFalseLiteral : SubVals → Bool
  | SubVals.falseV => true
  | SubVals.listV _ => false

/-- Python's `isinstance(specs.sub_values, list)` test used in `aggregate` to
pick out the subtotals of a subset. -/
def isListLiteral : SubVals → Bool
  | SubVals.falseV => false
  | SubVals.listV _ => true

/-- Values carried by `SubVals.listV` (the subtotal's filter list); a grand
total has no list, modelled as `[]` (this branch is never read by the code,
which guards with `isinstance(..., list)`). -/
def valsOfSub : SubVals → List Cell
  | SubVals.falseV => []
  | SubVals.listV l => l

/-- The `_TotalColSpecs` namedtuple `("column", "sub_values", "incl")` of
`dataframeaggregator.py`. -/
structure TotalColSpecs where
  column : String
  sub_values : SubVals
  incl : Bool
deriving DecidableEq

/-- The `_MeasureColSpecs` namedtuple `("column", "aggfunc")`: an aggregation
function reduces the list of cells of one column of one group to one cell. -/
structure MeasureColSpecs where
  column : String
  aggfunc : List Cell → Cell

/-- A Python value at the point where `add_grandtotal` evaluates
`column in self.grandtotals.values()`: either a plain scalar (the `column`
string) or a `TotalColSpecs` namedtuple (a dict value). -/
inductive PyTop where
  | cell (c : Cell)
  | spec (t : TotalColSpecs)

/-- Python `==` between the values compared by the `in` test of
`add_grandtotal`: two scalars compare by value, two namedtuples compare
componentwise, and a scalar never equals a tuple (Python returns
`NotImplemented` in both directions, which falls back to `False`). -/
def pyTopEq : PyTop → PyTop → Bool
  | PyTop.cell a, PyTop.cell b => a == b
  | PyTop.spec a, PyTop.spec b => a == b
  | _, _ => false

/-- Errors raised by the repository, one constructor per raise site.
`unknownColumn` is `_column_in_frame_`'s `ValueError`, `unknownPresetColumn`
is `set_frame`'s `ValueError`, `duplicateGrandTotal` and `duplicateAlias` are
the `KeyError`s of `add_grandtotal` / `_alias_is_unique_`, the last four come
from `aggregate` (`_can_perform_aggregate_` and the `totals_only` check). -/
inductive PyErr where
  | unknownColumn (column : String)
  | unknownPresetColumn (column : String)
  | duplicateGrandTotal (column : String)
  | duplicateAlias (a : String)
  | noFrame
  | noGroupCols
  | noMeasures
  | unknownTotalsOnlyColumn (column : String)
deriving DecidableEq

/-- The mutable attributes of a `DataFrameAggregator` instance. -/
structure AggState where
  frame : Option PFrame
  frameCols : List String
  groupCols : List String
  grandtotals : List (String × TotalColSpecs)
  subtotals : List (String × TotalColSpecs)
  measures : List (String × MeasureColSpecs)

/-- `DataFrameAggregator.__init__`: `_frame_cols` is captured from the frame
given at construction time (and stays `[]` when no frame is given). -/
def initAgg (f : Option PFrame) : AggState :=
  ⟨f, (match f with | some fr => fr.columns | none => []), [], [], [], []⟩

/-- `DataFrameAggregator._column_in_frame_`: succeeds when no frame is bound,
or when the column is among the cached `_frame_cols`; otherwise raises. -/
def columnInFrameErr (st : AggState) (c : String) : Option PyErr :=
  match st.frame with
  | none => none
  | some _ => if c ∈ st.frameCols then none else some (PyErr.unknownColumn c)

/-- `DataFrameAggregator._alias_is_unique_`: raises when the alias is already
a key of `grandtotals`, `subtotals` or `measures`. -/
def aliasErr (st : AggState) (a : String) : Option PyErr :=
  if st.grandtotals.any (fun p => p.1 == a) || st.subtotals.any (fun p => p.1 == a)
      || st.measures.any (fun p => p.1 == a) then
    some (PyErr.duplicateAlias a)
  else
    none

/-- `DataFrameAggregator.set_frame`: validates all previously registered
grouping and measure source columns against the new frame's schema, then
stores the frame.  Note: the source never refreshes `_frame_cols` here. -/
def set_frame (st : AggState) (f : PFrame) : AggState × Option PyErr :=
  let preset := dedupFirst (st.groupCols ++ st.measures.map (fun p => p.2.column))
  match preset.find? (fun c => !(f.columns.contains c)) with
  | some c => (st, some (PyErr.unknownPresetColumn c))
  | none => (⟨some f, st.frameCols, st.groupCols, st.grandtotals, st.subtotals, st.measures⟩, none)

/-- `DataFrameAggregator.add_groupby_column`: appends the column and
re-deduplicates the grouping list keeping first-seen order. -/
def add_groupby_column (st : AggState) (c : String) : AggState × Option PyErr :=
  match columnInFrameErr st c with
  | some e => (st, some e)
  | none =>
    (⟨st.frame, st.frameCols, dedupFirst (st.groupCols ++ [c]), st.grandtotals,
      st.subtotals, st.measures⟩, none)

/-- `DataFrameAggregator.add_grandtotal`: first auto-adds the grouping column,
then runs the duplicate-grand-total test `column in self.grandtotals.values()`
(a string compared against `TotalColSpecs` namedtuples), then the alias
uniqueness check, and finally stores `TotalColSpecs(column, False, True)`. -/
def add_grandtotal (st : AggState) (col : String) (a : String) : AggState × Option PyErr :=
  match add_groupby_column st col with
  | (st1, some e) => (st1, some e)
  | (st1, none) =>
    if st1.grandtotals.any (fun p => pyTopEq (PyTop.cell (Cell.s col)) (PyTop.spec p.2)) then
      (st1, some (PyErr.duplicateGrandTotal col))
    else
      match aliasErr st1 a with
      | some e => (st1, some e)
      | none =>
        (⟨st1.frame, st1.frameCols, st1.groupCols,
          st1.grandtotals ++ [(a, ⟨col, SubVals.falseV, true⟩)], st1.subtotals,
          st1.measures⟩, none)

/-- `DataFrameAggregator.add_subtotal`: auto-adds the grouping column, checks
alias uniqueness, and stores `TotalColSpecs(column, subtotal_filter,
subtotal_incl)`. -/
def add_subtotal (st : AggState) (col : String) (a : String) (vals : List Cell)
    (incl : Bool) : AggState × Option PyErr :=
  match add_groupby_column st col with
  | (st1, some e) => (st1, some e)
  | (st1, none) =>
    match aliasErr st1 a with
    | some e => (st1, some e)
    | none =>
      (⟨st1.frame, st1.frameCols, st1.groupCols, st1.grandtotals,
        st1.subtotals ++ [(a, ⟨col, SubVals.listV vals, incl⟩)], st1.measures⟩, none)

/-- `DataFrameAggregator.add_measure`: checks the source column against the
frame and the alias for uniqueness, then stores `MeasureColSpecs(column,
aggfunc)`. -/
def add_measure (st : AggState) (col : String) (a : String)
    (f : List Cell → Cell) : AggState × Option PyErr :=
  match columnInFrameErr st col with
  | some e => (st, some e)
  | none =>
    match aliasErr st a with
    | some e => (st, some e)
    | none =>
      (⟨st.frame, st.frameCols, st.groupCols, st.grandtotals, st.subtotals,
        st.measures ++ [(a, ⟨col, f⟩)]⟩, none)

/-- One output batch of `_compute_measures_` (and of the
`groupby(...).apply(...)` step of `pandas_util`): named measure columns, and
one output row per group holding the group-key tuple and the aggregated
values in column order. -/
structure Batch where
  colNames : List String
  rows : List (List Cell × List Cell)
deriving DecidableEq

/-- Insertion step of the `defaultdict(list)` of `_compute_measures_`:
append `f` to the function list of column `c`, creating the entry at the end
on first use (Python dicts keep insertion order). -/
def aggDictInsert (d : List (String × List (List Cell → Cell))) (c : String)
    (f : List Cell → Cell) : List (String × List (List Cell → Cell)) :=
  if d.any (fun p => p.1 == c) then
    d.map (fun p => if p.1 == c then (p.1, p.2 ++ [f]) else p)
  else
    d ++ [(c, [f])]

/-- The `agg_dict` built by `_compute_measures_`: measures are bucketed by
source column, keeping the first-seen column order and the per-column
registration order of functions. -/
def buildAggDict (measures : List (String × MeasureColSpecs)) :
    List (String × List (List Cell → Cell)) :=
  measures.foldl (fun d m => aggDictInsert d m.2.column m.2.aggfunc) []

/-- The list of values of column `c` over the given rows (one pandas
`Series`). -/
def colValues (rows : List Row) (c : String) : List Cell :=
  rows.map (fun r => rowGet r c)

/-- The group key of a row: the tuple of its values in the grouping columns. -/
def keyOf (gcols : List String) (r : Row) : List Cell :=
  gcols.map (rowGet r)

/-- `DataFrameAggregator._compute_measures_`:
`frame.groupby(group_cols).agg(agg_dict)` produces, per group, one value for
every `(column, aggfunc)` pair in `agg_dict` order, and
`agg.columns = list(measures.keys())` then renames those value columns
positionally with the measure aliases in registration order.  Group keys are
enumerated in first-occurrence order (the spec leaves group ordering
unspecified). -/
def computeMeasures (rows : List Row) (groupCols : List String)
    (measures : List (String × MeasureColSpecs)) : Batch :=
  let aggDict := buildAggDict measures
  let keys := dedupFirst (rows.map (keyOf groupCols))
  ⟨measures.map Prod.fst,
    keys.map (fun k =>
      let grp := rows.filter (fun r => keyOf groupCols r == k)
      (k, aggDict.bind (fun p => p.2.map (fun f => f (colValues grp p.1)))))⟩

/-- Value of the output column named `a` in the output row keyed `key` of a
batch: the alias is resolved positionally against `colNames`, exactly as the
renamed columns of `_compute_measures_` are read back. -/
def batchLookup (b : Batch) (key : List Cell) (a : String) : Option Cell :=
  match b.rows.find? (fun r => r.1 == key) with
  | some r => r.2.get? (b.colNames.indexOf a)
  | none => none

/-- Rewrite one row under `_apply_alias_transform_`: every column that is a
key of `to_transform` has its value replaced by the mapped alias string,
every other column is left alone. -/
def renameRow (d : List (String × String)) (r : Row) : Row :=
  r.map (fun p =>
    match dictGet d p.1 with
    | some a => (p.1, Cell.s a)
    | none => p)

/-- `frame.transform(self._apply_alias_transform_, "index", to_transform=d)`:
the columns named in `d` are replaced wholesale by their alias value. -/
def applyAliasTransform (rows : List Row) (d : List (String × String)) : List Row :=
  rows.map (renameRow d)

/-- The grand totals of one subset, as the `{specs.column: alias}` dict built
in `aggregate` (`specs.sub_values is False`). -/
def grandDict (subset : List (String × TotalColSpecs)) : List (String × String) :=
  (subset.filter (fun p => isFalseLiteral p.2.sub_values)).map (fun p => (p.2.column, p.1))

/-- The subtotal entries of one subset, in subset order
(`isinstance(specs.sub_values, list)`). -/
def subSpecs (subset : List (String × TotalColSpecs)) : List (String × TotalColSpecs) :=
  subset.filter (fun p => isListLiteral p.2.sub_values)

/-- The `{specs.column: alias}` dict for the subtotals of one subset. -/
def subDict (subset : List (String × TotalColSpecs)) : List (String × String) :=
  (subSpecs subset).map (fun p => (p.2.column, p.1))

/-- The subtotal row filter of `aggregate`:
`df[df[specs.column].isin(specs.sub_values) == specs.incl]` for one spec and
one row. -/
def subPred (p : String × TotalColSpecs) (r : Row) : Bool :=
  ((valsOfSub p.2.sub_values).contains (rowGet r p.2.column)) == p.2.incl

/-- The per-subset table transform of `aggregate` (lines 246-270): first the
grand-total columns are rewritten to their aliases, then every subtotal
filter is applied sequentially, then the subtotal columns are rewritten to
their aliases. -/
def applySubsetTransform (rows : List Row) (subset : List (String × TotalColSpecs)) :
    List Row :=
  let df1 := applyAliasTransform rows (grandDict subset)
  let df2 := (subSpecs subset).foldl (fun df p => df.filter (subPred p)) df1
  applyAliasTransform df2 (subDict subset)

/-- Modelled from the spec's words (§4.3 order invariant, §8): the claimed
equivalent of the subset transform — keep exactly the rows whose original
column values pass every subtotal selector (conjunctively), then rewrite
every spec's bound column (grand and sub alike) to its alias. -/
def specFilterThenRename (rows : List Row) (subset : List (String × TotalColSpecs)) :
    List Row :=
  (rows.filter (fun r => (subSpecs subset).all (fun p => subPred p r))).map
    (renameRow (subset.map (fun p => (p.2.column, p.1))))

/-- `itertools.combinations(l, r)`: all size-`r` subsequences of `l`, emitted
in lexicographic order of positions. -/
def combinations {α : Type} : Nat → List α → List (List α)
  | 0, _ => [[]]
  | _ + 1, [] => []
  | r + 1, x :: xs => ((combinations r xs).map (fun t => x :: t)) ++ combinations (r + 1) xs

/-- Python's `{**self.grandtotals, **self.subtotals}`: keys of the first dict
in their order (values overridden by the second dict on collision), then the
new keys of the second dict in its order. -/
def dictMerge (a b : List (String × TotalColSpecs)) : List (String × TotalColSpecs) :=
  a.map (fun p =>
    match dictGet b p.1 with
    | some v => (p.1, v)
    | none => p)
  ++ b.filter (fun q => !(a.any (fun p => p.1 == q.1)))

/-- The subset enumeration performed inside `DataFrameAggregator.aggregate`:
sizes run from `comb_min` (1, or `min(comb_max, 1 + len(totals_only))` when
`totals_only` is non-empty) up to `comb_max` (the number of distinct
total-bearing columns), and a combination is kept when its parent columns are
pairwise distinct and contain every `totals_only` column. -/
def aggregateSubsets (allTotals : List (String × TotalColSpecs))
    (totalsOnly : List String) : List (List (String × TotalColSpecs)) :=
  let combMax := ((allTotals.map (fun p => p.2.column)).dedup).length
  let combMin := if totalsOnly.isEmpty then 1 else min combMax (1 + totalsOnly.length)
  ((List.range' combMin (combMax + 1 - combMin)).bind
      (fun r => combinations r allTotals)).filter
    (fun subset =>
      let parentCols := subset.map (fun p => p.2.column)
      (parentCols.length == parentCols.dedup.length)
        && (totalsOnly.all (fun c => parentCols.contains c)))

/-- The distinct columns carrying a grand or sub total
(`cols_in_totals = list(set(...))` in `aggregate`). -/
def colsWithTotals (allTotals : List (String × TotalColSpecs)) : List String :=
  (allTotals.map (fun p => p.2.column)).dedup

/-- `DataFrameAggregator.aggregate`: validates the preconditions, validates
`totals_only` against the total-bearing columns, optionally runs the
zero-totals baseline pass (only when `totals_only` is empty or absent), and
then aggregates every legal combination in enumeration order.  Returns the
list of aggregated batches in the order they are appended to `all_stats`
(the final `pd.concat` concatenates them in this order). -/
def aggregateRun (st : AggState) (totalsOnly : List String) :
    Except PyErr (List Batch) :=
  match st.frame with
  | none => Except.error PyErr.noFrame
  | some f =>
    if st.groupCols.isEmpty then Except.error PyErr.noGroupCols
    else if st.measures.isEmpty then Except.error PyErr.noMeasures
    else
      let allTotals := dictMerge st.grandtotals st.subtotals
      match totalsOnly.find? (fun c => !((colsWithTotals allTotals).contains c)) with
      | some c => Except.error (PyErr.unknownTotalsOnlyColumn c)
      | none =>
        Except.ok
          ((if totalsOnly.isEmpty then
              [computeMeasures f.rows st.groupCols st.measures]
            else []) ++
            (aggregateSubsets allTotals totalsOnly).map
              (fun subset =>
                computeMeasures (applySubsetTransform f.rows subset) st.groupCols
                  st.measures))

/-- The `NamedTotal` dataclass of `pandas_util.py`: the bound column, the
alias written into it, and the row selector predicate. -/
structure NamedTotal where
  column : String
  alias_ : String
  selector : Cell → Bool

/-- The `validator` closure of `_generate_valid_subsets`: the subset's bound
columns are pairwise distinct (`len(cols) == len(set(cols))`) and, when a
`required` list was given, contain every required column. -/
def gvsValidator (required : Option (List String)) (subset : List NamedTotal) : Bool :=
  let cols := subset.map NamedTotal.column
  (cols.length == cols.dedup.length)
    && (match required with
        | none => true
        | some req => req.all (fun c => cols.contains c))

/-- `_generate_valid_subsets`: every combination of sizes 1 to `len(totals)`
is generated, then filtered by `validator` (the yielded order is the order of
the accumulated `subsets` list). -/
def generateValidSubsets (totals : List NamedTotal) (required : Option (List String)) :
    List (List NamedTotal) :=
  ((List.range' 1 totals.length).bind (fun r => combinations r totals)).filter
    (gvsValidator required)

/-- `_create_subset_frame`: for each `NamedTotal` of the subset in order,
keep the rows whose bound-column value passes the selector, then assign the
alias string to the whole bound column. -/
def createSubsetFrame (rows : List Row) (subset : List NamedTotal) : List Row :=
  subset.foldl
    (fun df t =>
      (df.filter (fun r => t.selector (rowGet r t.column))).map
        (fun r => rowSet r t.column (Cell.s t.alias_)))
    rows

/-- The csv writing mode of `_combine_to_csv`'s `csv_kwargs`: `"w"` truncates
the file, `"a"` appends to it. -/
inductive WMode where
  | w
  | a
deriving DecidableEq

/-- The mutable `csv_kwargs` dict captured by `_combine_to_csv`'s closure. -/
structure CsvKwargs where
  header : Bool
  mode : WMode
deriving DecidableEq

/-- The state threaded through repeated `append_df` calls: the lines of the
destination file plus the current `csv_kwargs`. -/
structure SinkState where
  file : List String
  kwargs : CsvKwargs
deriving DecidableEq

/-- Rendering of one cell in a csv line. -/
def cellStr : Cell → String
  | Cell.s v => v
  | Cell.i v => toString v

/-- The header line `DataFrame.to_csv` writes for a batch. -/
def csvHeader (b : Batch) : String :=
  String.intercalate "," b.colNames

/-- The data lines `DataFrame.to_csv` writes for a batch: index (group key)
values followed by measure values. -/
def csvRows (b : Batch) : List String :=
  b.rows.map (fun r => String.intercalate "," ((r.1 ++ r.2).map cellStr))

/-- `df.to_csv(**csv_kwargs)`: a header line is emitted when
`csv_kwargs["header"]` is set, and mode `"w"` replaces the file while mode
`"a"` appends to it. -/
def toCsv (file : List String) (k : CsvKwargs) (b : Batch) : List String :=
  let content := (if k.header then [csvHeader b] else []) ++ csvRows b
  match k.mode with
  | WMode.w => content
  | WMode.a => file ++ content

/-- The `append_df` closure of `_combine_to_csv`: write the batch with the
current kwargs, then after a header write switch the kwargs to
`header=False, mode="a"` for every later batch. -/
def appendDf (s : SinkState) (b : Batch) : SinkState :=
  let file := toCsv s.file s.kwargs b
  if s.kwargs.header then ⟨file, ⟨false, WMode.a⟩⟩ else ⟨file, s.kwargs⟩

/-- The initial `csv_kwargs` of `_combine_to_csv`: first write carries the
header and truncates any existing file. -/
def initSink : SinkState :=
  ⟨[], ⟨true, WMode.w⟩⟩

/-- The `groupby(groupby).apply(aggregator)` step of
`dataframe_combination_agg`: one output row per group key (first-occurrence
order; the spec leaves group ordering unspecified), with the aggregator's
result series giving the column names and values. -/
def groupbyApply (rows : List Row) (gcols : List String)
    (f : List Row → List (String × Cell)) : Batch :=
  let keys := dedupFirst (rows.map (keyOf gcols))
  ⟨(match keys with
    | [] => []
    | k :: _ => (f (rows.filter (fun r => keyOf gcols r == k))).map Prod.fst),
    keys.map (fun k => (k, (f (rows.filter (fun r => keyOf gcols r == k))).map Prod.snd))⟩

/-- `dataframe_combination_agg` in its streaming configuration
(`csv_output_path` given): every valid subset's aggregation is piped to the
csv sink, and `fn_output` returns the original dataframe untouched.  The
result is the returned frame together with the final contents of the csv
file. -/
def dataframeCombinationAggCsv (df : PFrame) (groupby : List String)
    (totals : List NamedTotal) (aggregator : List Row → List (String × Cell))
    (totalsOnly : Option (List String)) : PFrame × List String :=
  let batches := (generateValidSubsets totals totalsOnly).map
    (fun subset => groupbyApply (createSubsetFrame df.rows subset) groupby aggregator)
  let final := batches.foldl appendDf initSink
  (df, final.file)

/-- A concrete aggregation function: integer sum of a column (non-integer
cells contribute 0, as the examples only ever sum integer columns). -/
def pySumInt (cells : List Cell) : Cell :=
  Cell.i (cells.foldl (fun acc c => acc + (match c with | Cell.i n => n | Cell.s _ => 0)) 0)

/-- A concrete aggregation function: count of the values of a column. -/
def pyCount (cells : List Cell) : Cell :=
  Cell.i cells.length

/-- Concrete table for the measure-alias example: one group `g = "x"` with
columns `a` and `b`. -/
def exRowsC2 : List Row :=
  [[("g", Cell.s "x"), ("a", Cell.i 1), ("b", Cell.i 10)],
   [("g", Cell.s "x"), ("a", Cell.i 2), ("b", Cell.i 20)]]

/-- Measures registered in the order `m1` on `a`, `m2` on `b`, `m3` on `a`:
two measures on one source column interleaved with a measure on another. -/
def exMeasuresC2 : List (String × MeasureColSpecs) :=
  [("m1", ⟨"a", pySumInt⟩), ("m2", ⟨"b", pySumInt⟩), ("m3", ⟨"a", pyCount⟩)]

/-- First registration step of the duplicate-grand-total example:
`add_grandtotal("region", "R1")` on a fresh frameless aggregator. -/
def stepC1a : AggState × Option PyErr :=
  add_grandtotal (initAgg none) "region" "R1"

/-- Second registration step: `add_grandtotal("region", "R2")` on the result,
a second grand total on the same column under a fresh alias. -/
def stepC1b : AggState × Option PyErr :=
  add_grandtotal stepC1a.1 "region" "R2"

/-- A frame with a single column `region`, bound after construction. -/
def frameC3 : PFrame :=
  ⟨["region"], []⟩

/-- `set_frame` applied to a frameless aggregator: binds `frameC3`. -/
def stepC3 : AggState × Option PyErr :=
  set_frame (initAgg none) frameC3

/-- A frameless aggregator holding one measure aliased `"M"`; reusing `"M"`
for a subtotal must raise the duplicate-alias error. -/
def exStC10 : AggState :=
  (add_measure (initAgg none) "v" "M" pySumInt).1

/-- A `NamedTotal` bound to column `A` (a grand total: selector keeps every
row). -/
def exTA : NamedTotal :=
  ⟨"A", "ALL_A", fun _ => true⟩

/-- A `NamedTotal` bound to column `B`. -/
def exTB : NamedTotal :=
  ⟨"B", "ALL_B", fun _ => true⟩

/-- A registered grand `TotalColSpecs` on column `A`. -/
def exGrandA : String × TotalColSpecs :=
  ("ALL_A", ⟨"A", SubVals.falseV, true⟩)

/-- A registered sub `TotalColSpecs` on column `B`. -/
def exSubB : String × TotalColSpecs :=
  ("SB", ⟨"B", SubVals.listV [Cell.s "n"], true⟩)

/-- Concrete table for the transform example: columns `A`, `B` and a measure
column `v`. -/
def exRowsC7 : List Row :=
  [[("A", Cell.s "a1"), ("B", Cell.s "n"), ("v", Cell.i 1)],
   [("A", Cell.s "a2"), ("B", Cell.s "m"), ("v", Cell.i 2)],
   [("A", Cell.s "a1"), ("B", Cell.s "n"), ("v", Cell.i 3)]]

/-- A legal combination holding one grand total (on `A`) and one subtotal
(on `B`). -/
def exSubsetC7 : List (String × TotalColSpecs) :=
  [exGrandA, exSubB]

/-- Concrete aggregator state for the baseline example: frame bound at
construction, one grouping column `g`, one grand total on `g`, one measure. -/
def exFrameC6 : PFrame :=
  ⟨["g", "v"],
   [[("g", Cell.s "p"), ("v", Cell.i 4)],
    [("g", Cell.s "q"), ("v", Cell.i 6)]]⟩

/-- The state reached by registering `add_grandtotal("g", "ALL")` and
`add_measure("v", "sum_v", ...)` on an aggregator built over `exFrameC6`. -/
def exStC6 : AggState :=
  (add_measure (add_grandtotal (initAgg (some exFrameC6)) "g" "ALL").1 "v" "sum_v" pySumInt).1

/-! General list lemmas used by the verification below. -/

theorem head?_append_eq {α : Type} (l1 l2 : List α) :
    (l1 ++ l2).head? = match l1.head? with | some x => some x | none => l2.head? := by
  cases l1 <;> rfl

theorem mem_dedupFirstAux {α : Type} [DecidableEq α] (a : α) :
    ∀ (l seen : List α), a ∈ dedupFirstAux l seen ↔ a ∈ l ∧ a ∉ seen := by
  intro l
  induction l with
  | nil => intro seen; simp [dedupFirstAux]
  | cons x xs ih =>
    intro seen
    by_cases hx : x ∈ seen
    · rw [dedupFirstAux, if_pos hx, ih]
      constructor
      · rintro ⟨h1, h2⟩
        exact ⟨List.mem_cons_of_mem _ h1, h2⟩
      · rintro ⟨h1, h2⟩
        rcases List.mem_cons.mp h1 with rfl | h1
        · exact absurd hx h2
        · exact ⟨h1, h2⟩
    · rw [dedupFirstAux, if_neg hx]
      constructor
      · intro h
        rcases List.mem_cons.mp h with rfl | h
        · exact ⟨List.mem_cons_self _ _, hx⟩
        · rcases (ih _).mp h with ⟨h1, h2⟩
          exact ⟨List.mem_cons_of_mem _ h1, fun hs => h2 (List.mem_cons_of_mem _ hs)⟩
      · rintro ⟨h1, h2⟩
        rcases List.mem_cons.mp h1 with rfl | h1
        · exact List.mem_cons_self _ _
        · by_cases hax : a = x
          · subst hax; exact List.mem_cons_self _ _
          · exact List.mem_cons_of_mem _
              ((ih _).mpr ⟨h1, fun hs => by
                rcases List.mem_cons.mp hs with h | h
                · exact hax h
                · exact h2 h⟩)

theorem mem_dedupFirst {α : Type} [DecidableEq α] (a : α) (l : List α) :
    a ∈ dedupFirst l ↔ a ∈ l := by
  rw [dedupFirst, mem_dedupFirstAux]
  simp

theorem nodup_of_length_eq_dedup {α : Type} [DecidableEq α] (l : List α)
    (h : l.length = l.dedup.length) : l.Nodup := by
  have he := (List.dedup_sublist l).eq_of_length h.symm
  rw [← he]
  exact List.nodup_dedup l

theorem combinations_length {α : Type} :
    ∀ (r : Nat) (l : List α) (s : List α), s ∈ combinations r l → s.length = r := by
  intro r l
  induction l generalizing r with
  | nil =>
    intro s hs
    match r with
    | 0 => simp only [combinations, List.mem_singleton] at hs; simp [hs]
    | r + 1 => simp [combinations] at hs
  | cons x xs ih =>
    intro s hs
    match r with
    | 0 => simp only [combinations, List.mem_singleton] at hs; simp [hs]
    | r + 1 =>
      simp only [combinations, List.mem_append, List.mem_map] at hs
      rcases hs with ⟨t, ht, rfl⟩ | hs
      · simp [ih r t ht]
      · exact ih (r + 1) s hs

theorem filter_map_comm {α β : Type} (f : α → β) (p : β → Bool) (l : List α) :
    (l.map f).filter p = (l.filter (fun a => p (f a))).map f := by
  induction l with
  | nil => rfl
  | cons x xs ih =>
    simp only [List.map_cons, List.filter_cons]
    cases h : p (f x) <;> simp [h, ih]

theorem filter_filter_and {α : Type} (p q : α → Bool) (l : List α) :
    (l.filter p).filter q = l.filter (fun a => p a && q a) := by
  induction l with
  | nil => rfl
  | cons x xs ih =>
    simp only [List.filter_cons]
    cases hp : p x <;> cases hq : q x <;> simp [List.filter_cons, hp, hq, ih]

theorem foldl_filter_all {α β : Type} (specs : List β) (pred : β → α → Bool) :
    ∀ rows : List α,
      specs.foldl (fun df p => df.filter (pred p)) rows
        = rows.filter (fun r => specs.all (fun p => pred p r)) := by
  induction specs with
  | nil => intro rows; simp
  | cons x xs ih =>
    intro rows
    rw [List.foldl_cons, ih, filter_filter_and]
    simp only [List.all_cons]

theorem all_congr_fn {α : Type} (l : List α) (f g : α → Bool)
    (h : ∀ x ∈ l, f x = g x) : l.all f = l.all g := by
  induction l with
  | nil => rfl
  | cons x xs ih =>
    simp only [List.all_cons]
    rw [h x (List.mem_cons_self _ _), ih (fun y hy => h y (List.mem_cons_of_mem _ hy))]

theorem mem_of_head?_eq_some {α : Type} {l : List α} {a : α} (h : l.head? = some a) :
    a ∈ l := by
  cases l with
  | nil => simp at h
  | cons x xs => simp at h; simp [h]

theorem mem_of_contains_eq_true {α : Type} [BEq α] [LawfulBEq α] {l : List α} {a : α}
    (h : l.contains a = true) : a ∈ l := by
  simpa using h

/-! Lemmas about the Python dict model `dictGet`. -/

theorem dictGet_append {α : Type} (d1 d2 : List (String × α)) (k : String) :
    dictGet (d1 ++ d2) k
      = match dictGet d2 k with
        | some v => some v
        | none => dictGet d1 k := by
  rw [dictGet, List.filter_append, List.reverse_append, head?_append_eq]
  cases h : ((d2.filter (fun p => p.1 == k)).reverse).head? with
  | none => simp [dictGet, h]
  | some x => simp [dictGet, h]

theorem dictGet_eq_none_iff {α : Type} (d : List (String × α)) (k : String) :
    dictGet d k = none ↔ ∀ p ∈ d, ¬(p.1 == k) = true := by
  rw [dictGet, Option.map_eq_none', List.head?_eq_none_iff, List.reverse_eq_nil_iff,
    List.filter_eq_nil_iff]

theorem dictGet_eq_some_of_mem {α : Type} (d : List (String × α)) (k : String) (v : α)
    (hnd : (d.map Prod.fst).Nodup) (hm : (k, v) ∈ d) : dictGet d k = some v := by
  induction d with
  | nil => cases hm
  | cons p d ih =>
    simp only [List.map_cons, List.nodup_cons] at hnd
    rcases List.mem_cons.mp hm with rfl | hm2
    · have hfd : d.filter (fun q => q.1 == k) = [] := by
        rw [List.filter_eq_nil_iff]
        intro q hq hbq
        have hq1 : q.1 = k := by simpa using hbq
        have hkm : k ∈ d.map Prod.fst := hq1 ▸ List.mem_map_of_mem Prod.fst hq
        exact hnd.1 hkm
      rw [dictGet, List.filter_cons, if_pos (by simp), hfd]
      rfl
    · have hk : ¬((p.1 == k) = true) := by
        intro hb
        have hpk : p.1 = k := by simpa using hb
        have hkm : k ∈ d.map Prod.fst := by
          have h2 := List.mem_map_of_mem Prod.fst hm2
          simpa using h2
        exact hnd.1 (by rw [hpk]; exact hkm)
      rw [dictGet, List.filter_cons, if_neg hk]
      exact ih hnd.2 hm2

theorem mem_of_dictGet_eq_some {α : Type} (d : List (String × α)) (k : String) (v : α)
    (h : dictGet d k = some v) : (k, v) ∈ d := by
  rw [dictGet] at h
  rcases Option.map_eq_some'.mp h with ⟨x, hx, hxv⟩
  have hx' := mem_of_head?_eq_some hx
  rw [List.mem_reverse] at hx'
  rcases List.mem_filter.mp hx' with ⟨hxd, hxk⟩
  have hk : x.1 = k := by simpa using hxk
  have : x = (k, v) := by
    cases x
    simp only at hk hxv
    rw [hk, hxv]
  rw [← this]
  exact hxd

theorem dictGet_perm {α : Type} (d1 d2 : List (String × α)) (h : d1.Perm d2)
    (hnd : (d2.map Prod.fst).Nodup) (k : String) : dictGet d1 k = dictGet d2 k := by
  cases hc : dictGet d1 k with
  | none =>
    rw [dictGet_eq_none_iff] at hc
    rw [eq_comm, dictGet_eq_none_iff]
    intro p hp
    exact hc p ((h.mem_iff).mpr hp)
  | some v =>
    have hm := mem_of_dictGet_eq_some d1 k v hc
    exact (dictGet_eq_some_of_mem d2 k v hnd ((h.mem_iff).mp hm)).symm

/-! Lemmas about the alias rewrite `renameRow`. -/

/-- The per-pair action of `renameRow`. -/
def renamePair (d : List (String × String)) (p : String × Cell) : String × Cell :=
  match dictGet d p.1 with
  | some a => (p.1, Cell.s a)
  | none => p

theorem renameRow_eq_map (d : List (String × String)) (r : Row) :
    renameRow d r = r.map (renamePair d) := rfl

theorem renamePair_fst (d : List (String × String)) (p : String × Cell) :
    (renamePair d p).1 = p.1 := by
  unfold renamePair
  cases dictGet d p.1 <;> rfl

theorem find?_map_renamePair (d : List (String × String)) (r : Row) (c : String) :
    (r.map (renamePair d)).find? (fun p => p.1 == c)
      = (r.find? (fun p => p.1 == c)).map (renamePair d) := by
  induction r with
  | nil => rfl
  | cons p r ih =>
    simp only [List.map_cons, List.find?_cons]
    cases h : (p.1 == c) with
    | true => simp [renamePair_fst, h]
    | false => simp [renamePair_fst, h, ih]

theorem rowGet_renameRow_of_none (d : List (String × String)) (c : String)
    (h : dictGet d c = none) (r : Row) : rowGet (renameRow d r) c = rowGet r c := by
  rw [rowGet, rowGet, renameRow_eq_map, find?_map_renamePair]
  cases hf : r.find? (fun p => p.1 == c) with
  | none => rfl
  | some p =>
    simp only [Option.map_some']
    have hp1 : p.1 = c := by simpa using List.find?_some hf
    unfold renamePair
    rw [hp1, h]

theorem renamePair_comp (d1 d2 : List (String × String)) (p : String × Cell) :
    renamePair d2 (renamePair d1 p) = renamePair (d1 ++ d2) p := by
  unfold renamePair
  rw [dictGet_append d1 d2 p.1]
  cases h1 : dictGet d1 p.1 with
  | none =>
    cases h2 : dictGet d2 p.1 with
    | none => simp [h1, h2]
    | some a2 => simp [h1, h2]
  | some a1 =>
    cases h2 : dictGet d2 p.1 with
    | none => simp [h1, h2]
    | some a2 => simp [h1, h2]

theorem renameRow_comp (d1 d2 : List (String × String)) (r : Row) :
    renameRow d2 (renameRow d1 r) = renameRow (d1 ++ d2) r := by
  rw [renameRow_eq_map, renameRow_eq_map, renameRow_eq_map, List.map_map]
  show r.map (fun p => renamePair d2 (renamePair d1 p)) = _
  simp only [renamePair_comp]

theorem renameRow_congr (d1 d2 : List (String × String))
    (h : ∀ k, dictGet d1 k = dictGet d2 k) (r : Row) : renameRow d1 r = renameRow d2 r := by
  rw [renameRow_eq_map, renameRow_eq_map]
  have he : renamePair d1 = renamePair d2 := by
    funext p
    unfold renamePair
    rw [h p.1]
  rw [he]

/-! Lemmas about the subset transform of `aggregate`. -/

theorem subSpecs_eq_filter_not (subset : List (String × TotalColSpecs)) :
    subSpecs subset = subset.filter (fun p => !(isFalseLiteral p.2.sub_values)) := by
  unfold subSpecs
  apply List.filter_congr
  intro p _
  cases p.2.sub_values <;> rfl

theorem totalDict_perm (subset : List (String × TotalColSpecs)) :
    (grandDict subset ++ subDict subset).Perm (subset.map (fun p => (p.2.column, p.1))) := by
  unfold grandDict subDict
  rw [subSpecs_eq_filter_not, ← List.map_append]
  exact (List.filter_append_perm _ subset).map _

theorem totalDict_keys_eq (subset : List (String × TotalColSpecs)) :
    (subset.map (fun p => (p.2.column, p.1))).map Prod.fst
      = subset.map (fun p => p.2.column) := by
  rw [List.map_map]
  rfl

theorem dictGet_grandDict_none (subset : List (String × TotalColSpecs))
    (hnd : (subset.map (fun p => p.2.column)).Nodup) (p : String × TotalColSpecs)
    (hp : p ∈ subSpecs subset) : dictGet (grandDict subset) p.2.column = none := by
  rw [dictGet_eq_none_iff]
  intro q hq hbq
  unfold grandDict at hq
  rcases List.mem_map.mp hq with ⟨t, ht, rfl⟩
  rcases List.mem_filter.mp ht with ⟨hts, htg⟩
  rw [subSpecs_eq_filter_not] at hp
  rcases List.mem_filter.mp hp with ⟨hps, hpg⟩
  have hcol : t.2.column = p.2.column := by simpa using hbq
  have hte : t = p := List.inj_on_of_nodup_map hnd hts hps hcol
  rw [hte] at htg
  rw [htg] at hpg
  simp at hpg

/-- C7: for every base table and every legal (column-distinct) combination,
the subset transform of `aggregate` — grand aliases first, then the
sequential subtotal filters, then the subtotal aliases — equals
filter-then-rename: keep exactly the rows whose ORIGINAL bound-column values
pass every subtotal selector (conjunctively, membership when `incl` is true
and non-membership when it is false, as `subPred` states), then rewrite every
spec's bound column to its alias.  Grand specs contribute no filter, only the
rewrite. -/
theorem subset_transform_eq_filter_then_rename (rows : List Row)
    (subset : List (String × TotalColSpecs))
    (hnd : (subset.map (fun p => p.2.column)).Nodup) :
    applySubsetTransform rows subset = specFilterThenRename rows subset := by
  simp only [applySubsetTransform, specFilterThenRename]
  rw [foldl_filter_all]
  unfold applyAliasTransform
  rw [filter_map_comm, List.map_map]
  have hfun : (renameRow (subDict subset)) ∘ (renameRow (grandDict subset))
      = renameRow (subset.map (fun p => (p.2.column, p.1))) := by
    funext r
    rw [Function.comp_apply, renameRow_comp]
    apply renameRow_congr
    intro k
    apply dictGet_perm _ _ (totalDict_perm subset)
    rw [totalDict_keys_eq]
    exact hnd
  rw [hfun]
  congr 1
  apply List.filter_congr
  intro r _
  apply all_congr_fn
  intro p hp
  unfold subPred
  rw [rowGet_renameRow_of_none _ _ (dictGet_grandDict_none subset hnd p hp)]

/-- Witness for C7: the transform equivalence evaluated on a concrete table
and the concrete legal combination `exSubsetC7` (a grand total on `A`, a
subtotal on `B`). -/
theorem subset_transform_eq_filter_then_rename_witness :
    applySubsetTransform exRowsC7 exSubsetC7 = specFilterThenRename exRowsC7 exSubsetC7 :=
  subset_transform_eq_filter_then_rename exRowsC7 exSubsetC7 (by decide)

/-- C4: neither subset enumeration ever yields a combination binding one
column twice: every combination yielded by `_generate_valid_subsets` (for any
registered totals and any required-columns constraint) and every combination
processed by `aggregate`'s enumeration has pairwise-distinct bound columns. -/
theorem enumerated_subsets_columns_nodup :
    (∀ (totals : List NamedTotal) (required : Option (List String))
        (s : List NamedTotal), s ∈ generateValidSubsets totals required →
      (s.map NamedTotal.column).Nodup)
    ∧ (∀ (allTotals : List (String × TotalColSpecs)) (tOnly : List String)
        (s : List (String × TotalColSpecs)), s ∈ aggregateSubsets allTotals tOnly →
      (s.map (fun p => p.2.column)).Nodup) := by
  constructor
  · intro totals required s hs
    simp only [generateValidSubsets] at hs
    rcases List.mem_filter.mp hs with ⟨_, hv⟩
    simp only [gvsValidator, Bool.and_eq_true] at hv
    exact nodup_of_length_eq_dedup _ (by simpa using hv.1)
  · intro allTotals tOnly s hs
    simp only [aggregateSubsets] at hs
    rcases List.mem_filter.mp hs with ⟨_, hv⟩
    simp only [Bool.and_eq_true] at hv
    exact nodup_of_length_eq_dedup _ (by simpa using hv.1)

/-- Witness for C4: both parts applied to concrete enumerations — the first
combination yielded by `_generate_valid_subsets` over two totals, and the
single combination yielded by `aggregate`'s enumeration over a grand total on
`A` and a subtotal on `B` with `totals_only = ["A"]`. -/
theorem enumerated_subsets_columns_nodup_witness :
    (([exTA].map NamedTotal.column).Nodup)
    ∧ (([exGrandA, exSubB].map (fun p => p.2.column)).Nodup) := by
  constructor
  · apply enumerated_subsets_columns_nodup.1 [exTA, exTB] none [exTA]
    have h : generateValidSubsets [exTA, exTB] none = [[exTA], [exTB], [exTA, exTB]] := rfl
    rw [h]
    exact List.mem_cons_self _ _
  · apply enumerated_subsets_columns_nodup.2 [exGrandA, exSubB] ["A"] [exGrandA, exSubB]
    decide

/-- Counterexample for C5 as stated: over two totals bound to the two
distinct columns `A` and `B` (so N = 2) with `required_columns = ["A"]`,
`_generate_valid_subsets` yields a combination of size 1, strictly below the
claimed minimum `min(N, 1 + 1) = 2` (the singleton `[exTA]`, which carries
the required column but no second total). -/
theorem generateValidSubsets_minsize_counterexample :
    (([exTA, exTB].map NamedTotal.column).dedup).length = 2
    ∧ (generateValidSubsets [exTA, exTB] (some ["A"])).any
        (fun s => decide (s.length < 2)) = true := by
  exact ⟨rfl, rfl⟩

/-- C5 (amended): when a required-columns constraint is given, every yielded
combination's bound columns are a superset of the required columns — in both
enumerators.  The minimum-size bound `min(N, 1 + |required|)` holds for the
enumeration performed by `DataFrameAggregator.aggregate` (whose `comb_min`
enforces it); `_generate_valid_subsets` guarantees only the superset
property (its sizes start at 1). -/
theorem subset_required_superset_and_minsize :
    (∀ (totals : List NamedTotal) (req : List String) (s : List NamedTotal),
        s ∈ generateValidSubsets totals (some req) →
      ∀ c ∈ req, c ∈ s.map NamedTotal.column)
    ∧ (∀ (allTotals : List (String × TotalColSpecs)) (tOnly : List String)
        (s : List (String × TotalColSpecs)), s ∈ aggregateSubsets allTotals tOnly →
      (∀ c ∈ tOnly, c ∈ s.map (fun p => p.2.column))
      ∧ (tOnly ≠ [] →
          min ((allTotals.map (fun p => p.2.column)).dedup).length (1 + tOnly.length)
            ≤ s.length)) := by
  constructor
  · intro totals req s hs c hc
    simp only [generateValidSubsets] at hs
    rcases List.mem_filter.mp hs with ⟨_, hv⟩
    simp only [gvsValidator, Bool.and_eq_true] at hv
    have hall := List.all_eq_true.mp hv.2 c hc
    exact mem_of_contains_eq_true (by simpa using hall)
  · intro allTotals tOnly s hs
    simp only [aggregateSubsets] at hs
    rcases List.mem_filter.mp hs with ⟨hmem, hv⟩
    simp only [Bool.and_eq_true] at hv
    constructor
    · intro c hc
      have hall := List.all_eq_true.mp hv.2 c hc
      exact mem_of_contains_eq_true (by simpa using hall)
    · intro hne
      rcases List.mem_bind.mp hmem with ⟨r, hr, hsr⟩
      have hlen := combinations_length r allTotals s hsr
      have hlow := (List.mem_range'_1.mp hr).1
      rw [hlen]
      have hie : tOnly.isEmpty = false := by
        cases tOnly with
        | nil => exact absurd rfl hne
        | cons x xs => rfl
      rw [hie] at hlow
      simpa using hlow

/-- Witness for C5 (amended): the superset property evaluated on the
concrete combinations yielded by both enumerators, and the minimum-size
bound evaluated on the one combination `aggregate` enumerates for
`totals_only = ["A"]` over a grand total on `A` and a subtotal on `B`. -/
theorem subset_required_superset_and_minsize_witness :
    ("A" ∈ [exTA].map NamedTotal.column)
    ∧ ("A" ∈ [exGrandA, exSubB].map (fun p => p.2.column))
    ∧ (min (([exGrandA, exSubB].map (fun p => p.2.column)).dedup).length
        (1 + (["A"] : List String).length) ≤ [exGrandA, exSubB].length) := by
  refine ⟨?_, ?_, ?_⟩
  · apply subset_required_superset_and_minsize.1 [exTA, exTB] ["A"] [exTA]
    · have h : generateValidSubsets [exTA, exTB] (some ["A"]) = [[exTA], [exTA, exTB]] := rfl
      rw [h]
      exact List.mem_cons_self _ _
    · exact List.mem_cons_self _ _
  · exact (subset_required_superset_and_minsize.2 [exGrandA, exSubB] ["A"]
      [exGrandA, exSubB] (by decide)).1 "A" (List.mem_cons_self _ _)
  · exact (subset_required_superset_and_minsize.2 [exGrandA, exSubB] ["A"]
      [exGrandA, exSubB] (by decide)).2 (by decide)

/-- C6: when `aggregate`'s preconditions hold and every `totals_only` entry
names a total-bearing column, the run succeeds and its batch list starts with
the zero-totals baseline batch (the measures computed over the untransformed
bound frame) exactly when `totals_only` is empty or absent; when
`totals_only` is non-empty the batch list consists solely of the
per-combination batches and no baseline batch is produced. -/
theorem aggregate_baseline_iff_no_totals_only (st : AggState) (totalsOnly : List String)
    (f : PFrame) (hf : st.frame = some f) (hg : st.groupCols.isEmpty = false)
    (hm : st.measures.isEmpty = false)
    (hto : totalsOnly.all
        (fun c => (colsWithTotals (dictMerge st.grandtotals st.subtotals)).contains c)
      = true) :
    aggregateRun st totalsOnly
      = Except.ok
          ((if totalsOnly.isEmpty then
              [computeMeasures f.rows st.groupCols st.measures]
            else []) ++
            (aggregateSubsets (dictMerge st.grandtotals st.subtotals) totalsOnly).map
              (fun subset =>
                computeMeasures (applySubsetTransform f.rows subset) st.groupCols
                  st.measures)) := by
  have hfind : totalsOnly.find?
      (fun c => !((colsWithTotals (dictMerge st.grandtotals st.subtotals)).contains c))
        = none := by
    rw [List.find?_eq_none]
    intro c hc
    have h2 := List.all_eq_true.mp hto c hc
    rw [h2]
    simp
  simp only [aggregateRun, hf, hg, hm, Bool.false_eq_true, if_false, hfind]

/-- Witness for C6: the baseline shape evaluated on a concrete aggregator
(one grouping column, one grand total, one measure) run with
`totals_only = []`. -/
theorem aggregate_baseline_iff_no_totals_only_witness :
    aggregateRun exStC6 []
      = Except.ok
          ((if ([] : List String).isEmpty then
              [computeMeasures exFrameC6.rows exStC6.groupCols exStC6.measures]
            else []) ++
            (aggregateSubsets (dictMerge exStC6.grandtotals exStC6.subtotals) []).map
              (fun subset =>
                computeMeasures (applySubsetTransform exFrameC6.rows subset)
                  exStC6.groupCols exStC6.measures)) :=
  aggregate_baseline_iff_no_totals_only exStC6 [] exFrameC6 rfl rfl rfl rfl

theorem columnInFrameErr_some (st : AggState) (c : String) (e : PyErr)
    (h : columnInFrameErr st c = some e) : e = PyErr.unknownColumn c := by
  unfold columnInFrameErr at h
  cases hsf : st.frame with
  | none => rw [hsf] at h; simp at h
  | some fr =>
    rw [hsf] at h
    by_cases hmem : c ∈ st.frameCols
    · rw [if_pos hmem] at h; simp at h
    · rw [if_neg hmem] at h
      injection h with h2
      exact h2.symm

theorem add_groupby_column_snd_some (st : AggState) (c : String) (st1 : AggState)
    (e : PyErr) (h : add_groupby_column st c = (st1, some e)) :
    e = PyErr.unknownColumn c ∧ st1 = st := by
  unfold add_groupby_column at h
  cases hc : columnInFrameErr st c with
  | none => rw [hc] at h; simp at h
  | some e2 =>
    rw [hc] at h
    injection h with h1 h2
    injection h2 with h3
    exact ⟨h3 ▸ columnInFrameErr_some st c e2 hc, h1.symm⟩

theorem add_groupby_column_snd_none (st : AggState) (c : String) (st1 : AggState)
    (h : add_groupby_column st c = (st1, none)) : c ∈ st1.groupCols := by
  unfold add_groupby_column at h
  cases hc : columnInFrameErr st c with
  | some e2 => rw [hc] at h; simp at h
  | none =>
    rw [hc] at h
    injection h with h1 _
    rw [← h1]
    show c ∈ dedupFirst (st.groupCols ++ [c])
    rw [mem_dedupFirst]
    simp

/-- C10: registration is not atomic on error — whenever `add_grandtotal`
raises the duplicate-grand-total or duplicate-alias error, or `add_subtotal`
raises the duplicate-alias error, the referenced column is nevertheless a
member of the grouping-column list of the state left behind by the call (the
`add_groupby_column` side effect has already happened and is not rolled
back). -/
theorem add_total_groupcol_side_effect (st : AggState) (col a : String)
    (vals : List Cell) (incl : Bool) :
    (((add_grandtotal st col a).2 = some (PyErr.duplicateGrandTotal col)
        ∨ (add_grandtotal st col a).2 = some (PyErr.duplicateAlias a))
      → col ∈ (add_grandtotal st col a).1.groupCols)
    ∧ ((add_subtotal st col a vals incl).2 = some (PyErr.duplicateAlias a)
      → col ∈ (add_subtotal st col a vals incl).1.groupCols) := by
  constructor
  · intro hyp
    rcases hgc : add_groupby_column st col with ⟨st1, e1⟩
    cases e1 with
    | some e =>
      have hres : add_grandtotal st col a = (st1, some e) := by
        unfold add_grandtotal
        rw [hgc]
      rw [hres] at hyp
      have he := (add_groupby_column_snd_some st col st1 e hgc).1
      rcases hyp with h | h <;> rw [he] at h <;> simp at h
    | none =>
      have hmem : col ∈ st1.groupCols := add_groupby_column_snd_none st col st1 hgc
      have hres : (add_grandtotal st col a).1.groupCols = st1.groupCols := by
        unfold add_grandtotal
        rw [hgc]
        dsimp only
        by_cases hdup :
            (st1.grandtotals.any fun p =>
              pyTopEq (PyTop.cell (Cell.s col)) (PyTop.spec p.2)) = true
        · rw [if_pos hdup]
        · rw [if_neg hdup]
          cases ha : aliasErr st1 a <;> rfl
      rw [hres]
      exact hmem
  · intro hyp
    rcases hgc : add_groupby_column st col with ⟨st1, e1⟩
    cases e1 with
    | some e =>
      have hres : add_subtotal st col a vals incl = (st1, some e) := by
        unfold add_subtotal
        rw [hgc]
      rw [hres] at hyp
      have he := (add_groupby_column_snd_some st col st1 e hgc).1
      rw [he] at hyp
      simp at hyp
    | none =>
      have hmem : col ∈ st1.groupCols := add_groupby_column_snd_none st col st1 hgc
      have hres : (add_subtotal st col a vals incl).1.groupCols = st1.groupCols := by
        unfold add_subtotal
        rw [hgc]
        dsimp only
        cases ha : aliasErr st1 a <;> rfl
      rw [hres]
      exact hmem

/-- Witness for C10: an aggregator holding a measure aliased `"M"`; the call
`add_subtotal("region", "M", ...)` raises the duplicate-alias error, yet
`"region"` sits in the grouping-column list of the state it leaves behind. -/
theorem add_total_groupcol_side_effect_witness :
    "region" ∈ (add_subtotal exStC10 "region" "M" [Cell.s "N"] true).1.groupCols :=
  (add_total_groupcol_side_effect exStC10 "region" "M" [Cell.s "N"] true).2 rfl

/-- C1 evaluated on the failing input: `add_grandtotal("region", "R1")` on a
fresh aggregator succeeds, and a second `add_grandtotal("region", "R2")` on
the same column with a fresh alias ALSO succeeds — no duplicate-grand-total
error is raised and both grand totals end up registered on `region`.  The
membership test `column in self.grandtotals.values()` compares the column
string against `TotalColSpecs` namedtuples and is therefore always false,
contradicting the documented `KeyError if the column is assigned more than
one grandtotal`. -/
theorem second_grandtotal_not_rejected :
    stepC1a.2 = none ∧ stepC1b.2 = none
    ∧ stepC1b.1.grandtotals.map (fun p => (p.1, p.2.column))
        = [("R1", "region"), ("R2", "region")] :=
  ⟨rfl, rfl, rfl⟩

/-- C2 evaluated on the failing input: with measures registered in the order
`m1` on `a`, `m2` on `b`, `m3` on `a`, the output column named `m2` holds the
value `2` (the count of column `a`, i.e. `m3`'s reduction), while `m2`'s own
reduction — `sum` over its source column `b` within the single group — is
`30`.  `_compute_measures_` buckets aggregation functions per source column
and then renames the resulting columns positionally with the aliases in
registration order, misaligning aliases whenever a column's measures are not
contiguous. -/
theorem measure_alias_misassigned :
    computeMeasures exRowsC2 ["g"] exMeasuresC2
      = ⟨["m1", "m2", "m3"], [([Cell.s "x"], [Cell.i 3, Cell.i 2, Cell.i 30])]⟩
    ∧ batchLookup (computeMeasures exRowsC2 ["g"] exMeasuresC2) [Cell.s "x"] "m2"
        = some (Cell.i 2)
    ∧ pySumInt (colValues exRowsC2 "b") = Cell.i 30
    ∧ Cell.i 2 ≠ Cell.i 30 := by
  refine ⟨by decide, by decide, by decide, by decide⟩

/-- C3 evaluated on the failing input: an aggregator built without a frame
has `_frame_cols = []`; `set_frame` then binds a frame with column `region`
(succeeding, and eagerly validating the — empty — set of previously
registered specs) but never refreshes `_frame_cols`, so the subsequent
`add_groupby_column("region")` raises the unknown-column error even though
`region` IS a column of the bound frame, contradicting the documented
`KeyError if the column does not exist in the DataFrame`. -/
theorem present_column_rejected_after_set_frame :
    stepC3.2 = none
    ∧ ("region" ∈ frameC3.columns)
    ∧ stepC3.1.frame = some frameC3
    ∧ (add_groupby_column stepC3.1 "region").2 = some (PyErr.unknownColumn "region") := by
  refine ⟨rfl, by decide, rfl, rfl⟩

/-- C8: for every grouping-column list and measure list, the measure
aggregation over a table with zero rows (everything filtered away) is
defined and produces a batch with zero output rows (and the measure aliases
as its schema): an empty frame has no group keys, hence no groups and no
output rows, and no error arises (`_compute_measures_` is total here; the
empty-group-key-list case is excluded upstream by
`_can_perform_aggregate_`). -/
theorem computeMeasures_empty_table :
    ∀ (groupCols : List String) (measures : List (String × MeasureColSpecs)),
      (computeMeasures [] groupCols measures).rows = []
      ∧ (computeMeasures [] groupCols measures).colNames = measures.map Prod.fst :=
  fun _ _ => ⟨rfl, rfl⟩

theorem foldl_appendDf_noheader (bs : List Batch) :
    ∀ f : List String,
      bs.foldl appendDf ⟨f, ⟨false, WMode.a⟩⟩
        = ⟨f ++ (bs.map csvRows).join, ⟨false, WMode.a⟩⟩ := by
  induction bs with
  | nil =>
    intro f
    simp
  | cons b bs ih =>
    intro f
    rw [List.foldl_cons]
    have h1 : appendDf ⟨f, ⟨false, WMode.a⟩⟩ b = ⟨f ++ csvRows b, ⟨false, WMode.a⟩⟩ := rfl
    rw [h1, ih]
    simp [List.append_assoc]

/-- C9: under the streaming sink policy, the first aggregated batch is
written in overwrite mode with a header line (any pre-existing file contents
`f0` are discarded) and every later batch contributes only its data rows,
appended without a header; and the streaming run of
`dataframe_combination_agg` returns the original base frame unchanged. -/
theorem streaming_sink_first_header_then_append :
    (∀ (df : PFrame) (groupby : List String) (totals : List NamedTotal)
        (aggregator : List Row → List (String × Cell))
        (totalsOnly : Option (List String)),
      (dataframeCombinationAggCsv df groupby totals aggregator totalsOnly).1 = df)
    ∧ (∀ (f0 : List String) (b : Batch) (bs : List Batch),
        (b :: bs).foldl appendDf ⟨f0, ⟨true, WMode.w⟩⟩
          = ⟨csvHeader b :: (csvRows b ++ (bs.map csvRows).join), ⟨false, WMode.a⟩⟩) := by
  constructor
  · intro df groupby totals aggregator totalsOnly
    rfl
  · intro f0 b bs
    rw [List.foldl_cons]
    have h1 : appendDf ⟨f0, ⟨true, WMode.w⟩⟩ b
        = ⟨csvHeader b :: csvRows b, ⟨false, WMode.a⟩⟩ := rfl
    rw [h1, foldl_appendDf_noheader]
    rfl
